import Mathlib

/-!
# Verification of the sherlock reactive dependency-tracking engine

A shallow embedding of the data model and the operations of the engine.

The `Atom` definitions below are translated directly from
`src/derivable/atom.ts`.  The engine parts whose implementation files are
not part of this excerpt (the dependency tracker, `Constant`, `Derivation`
and the autoCache scheduler — only their test files are present) are
modelled from the specification; each such definition carries a doc
comment starting with `Modelled from the spec:`.

Modelling conventions:
* `State<V>` (a value or the `unresolved` sentinel) becomes the inductive
  `St V`; the sherlock structural equality `equals` becomes decidable
  equality on `St V`.
* `augmentState` only attaches diagnostic creation stacks in debug mode
  (spec §6: "purely additive, no semantic effect"), so it is the identity
  here.
* Thrown JavaScript `Error` objects are identified by a `Nat` id, so that
  "rethrows the identical error object" becomes equality of ids.
* `processChangedAtom` is represented by the notification payload the call
  would carry: `Atom.set` returns the new atom together with
  `Option (St V × Nat)`, which is `some (oldState, oldVersion)` exactly
  when the source would call `processChangedAtom(this, oldState,
  this.version++)`, and `none` when the equality check short-circuits.
-/

set_option linter.unusedSectionVars false

namespace Sherlock

/-- The resolved state of a derivable: a value, or the first-class
`unresolved` sentinel (distinct from every application value). -/
inductive St (V : Type) where
  | value : V → St V
  | unresolved : St V
deriving DecidableEq, Repr

variable {V W : Type} [DecidableEq V] [DecidableEq W]

/-- Definition `Atom` from `src/derivable/atom.ts`: the mutable state holder, with its
current state (field `[restorableState]`) and its `version` counter. -/
structure Atom (V : Type) where
  restorableState : St V
  version : Nat
deriving DecidableEq, Repr

/-- The `Atom` constructor: stores the (augmented) initial state; the field
declaration `version = 0` sets the starting version. -/
def Atom.make (s : St V) : Atom V :=
  { restorableState := s, version := 0 }

/-- Operation `Atom.set` from `src/derivable/atom.ts`:
if the new state is not `equals` to the old state, replace the state,
increment the version and call `processChangedAtom` with the old state and
old version; otherwise do nothing.  The second component is the
notification payload handed to `processChangedAtom` (`none` = no call). -/
def Atom.set (a : Atom V) (newState : St V) : Atom V × Option (St V × Nat) :=
  if newState = a.restorableState then
    (a, none)
  else
    ({ restorableState := newState, version := a.version + 1 },
     some (a.restorableState, a.version))

/-- A sequence of `set` operations applied to an atom, in order. -/
def Atom.setMany (a : Atom V) (xs : List (St V)) : Atom V :=
  List.foldl (fun b x => (Atom.set b x).1) a xs

/-- Modelled from the spec: the current-evaluation slot of the
dependency tracker (§4.1).  `none` means no computation is in progress; `some ds` means a
derivation is mid-evaluation and `ds` is its in-progress dependency list.
The node type is a parameter `α`. -/
abbrev Tracker (α : Type) : Type := Option (List α)

/-- Modelled from the spec: `recordObservation(node)` (§4.1) — if a
computation is in progress, append the node to the in-progress dependency
list (creating the graph edge); otherwise a no-op. -/
def recordObservation (tr : Tracker α) (n : α) : Tracker α :=
  match tr with
  | none => none
  | some ds => some (ds ++ [n])

/-- Operation `Atom[internalGetState]` from `src/derivable/atom.ts`: calls
`recordObservation(this)` and returns the current state. -/
def Atom.internalGetState (a : Atom V) (tr : Tracker (Atom V)) :
    St V × Tracker (Atom V) :=
  (a.restorableState, recordObservation tr a)

/-- Modelled from the spec: `Constant` (§3) — state fixed at construction,
version fixed at 0, never notifies, no dependency edges. -/
structure Constant (V : Type) where
  state : St V
deriving DecidableEq, Repr

/-- The version of a `Constant` is fixed at 0. -/
def Constant.version (_c : Constant V) : Nat := 0

/-- Modelled from the spec: a `Constant` read, like the
"read current resolved state" path of every node (§4.1), records the observation and
returns the fixed state. -/
def Constant.internalGetState (c : Constant V) (tr : Tracker (Constant V)) :
    St V × Tracker (Constant V) :=
  (c.state, recordObservation tr c)

/-- The result a derivation caches: `CACHED-VALUE`, `CACHED-ERROR`
(a thrown error, identified by id), or the propagated `UNRESOLVED`
state (§4.4). -/
inductive DRes (W : Type) where
  | val : W → DRes W
  | err : Nat → DRes W
  | unres : DRes W
deriving DecidableEq, Repr

/-- Modelled from the spec: a `Derivation` over a single dependency (§4.4).
`cache` is the memoized last result (`none` = FRESH, not yet computed);
`stale` is the push-notification flag; `version` counts actual result
changes; `depVersion` is the version of the dependency at last capture;
`id` stands for the object identity of this derivation (the `this`
reference); `calls` instruments how often `computeFn` has been invoked. -/
structure Derivation (W : Type) where
  cache : Option (DRes W)
  stale : Bool
  version : Nat
  depVersion : Nat
  id : Nat
  calls : Nat
deriving DecidableEq, Repr

/-- A freshly constructed derivation: FRESH (no cached result), version 0,
no compute calls yet. -/
def Derivation.fresh (i : Nat) : Derivation W :=
  { cache := none, stale := true, version := 0, depVersion := 0,
    id := i, calls := 0 }

/-- Modelled from the spec: recomputation (§4.4 step 3–5).  `computeFn` is
invoked with `this` bound to the derivation (its id is passed first) and
reads the current state of the dependency.  The produced value, thrown error or
propagated unresolved state is captured as the new cached result, the
dependency version is captured, the result is compared with the previous
cached result under the equality contract — equal keeps the previous
version, different increments it — and `stale` is cleared. -/
def Derivation.recompute (f : Nat → St V → DRes W) (a : Atom V)
    (d : Derivation W) : DRes W × Derivation W :=
  (f d.id a.restorableState,
   { cache := some (f d.id a.restorableState),
     stale := false,
     version :=
       match d.cache with
       | some r0 => if f d.id a.restorableState = r0 then d.version
                    else d.version + 1
       | none => d.version + 1,
     depVersion := a.version,
     id := d.id,
     calls := d.calls + 1 })

/-- Modelled from the spec: `Derivation.get` (§4.4, §2).  If a cached
result exists and the derivation is not stale, return it without
recomputation.  If it is stale but the version of the dependency has not
actually changed since capture, keep the cache and just clear the flag
("a dependency being notified does not guarantee its value changed").
Otherwise recompute. -/
def Derivation.get (f : Nat → St V → DRes W) (a : Atom V)
    (d : Derivation W) : DRes W × Derivation W :=
  match d.cache with
  | some r =>
    if d.stale then
      if d.depVersion = a.version then
        (r, { d with stale := false })
      else
        Derivation.recompute f a d
    else
      (r, d)
  | none => Derivation.recompute f a d

/-- A one-atom, one-derivation system in the observed/autoCache regime in
which cached state persists between reads.  `reactor` records whether a
Reactor is attached (it decides whether the autoCache tick may release the
cache). -/
structure Sys (V W : Type) where
  a : Atom V
  d : Derivation W
  reactor : Bool
deriving DecidableEq, Repr

/-- Atom mutation inside the system: `Atom.set`, and — when the equality
check did not short-circuit — `processChangedAtom` pushes a "possibly
stale" notification to the observing derivation, which only marks itself
stale (no synchronous recomputation). -/
def Sys.set (s : Sys V W) (x : St V) : Sys V W :=
  match Atom.set s.a x with
  | (a2, none) => { s with a := a2 }
  | (a2, some _) => { s with a := a2, d := { s.d with stale := true } }

/-- Reading the derivation through the system. -/
def Sys.get (f : Nat → St V → DRes W) (s : Sys V W) : DRes W × Sys V W :=
  let p := Derivation.get f s.a s.d
  (p.1, { s with d := p.2 })

/-- Modelled from the spec: the end-of-unit-of-work callback of the
autoCache scheduler (§4.7) — if no Reactor is attached, the cache-without-observer
grace period ends and the cached state is released; with a Reactor
attached, normal observer-driven caching takes over and the tick has no
effect. -/
def Sys.tick (s : Sys V W) : Sys V W :=
  if s.reactor then s else { s with d := { s.d with cache := none } }

/-- Repeated reads, `n` of them, keeping only the final system. -/
def Sys.getMany (f : Nat → St V → DRes W) (s : Sys V W) : Nat → Sys V W
  | 0 => s
  | n + 1 => Sys.getMany f (Sys.get f s).2 n

/-- An operation on the system: an atom mutation, a read, or an
end-of-unit-of-work tick. -/
inductive SysOp (V : Type) where
  | doSet : St V → SysOp V
  | doGet : SysOp V
  | doTick : SysOp V

/-- Run a sequence of operations. -/
def Sys.run (f : Nat → St V → DRes W) (s : Sys V W) :
    List (SysOp V) → Sys V W
  | [] => s
  | SysOp.doSet x :: ops => Sys.run f (Sys.set s x) ops
  | SysOp.doGet :: ops => Sys.run f (Sys.get f s).2 ops
  | SysOp.doTick :: ops => Sys.run f (Sys.tick s) ops

/-- Modelled from the spec: the two dependency nodes of the fallback
derivation (`a$` and the fallback derivable). -/
inductive FNode where
  | na : FNode
  | nb : FNode
deriving DecidableEq, Repr

/-- Modelled from the spec: a derivation `b$ = a$.fallbackTo(fallback$)`
over two atoms (§3 Derivation, §9 design notes on dynamic dependency
sets): its compute reads `a` and reads the fallback `b` only when `a` is
unresolved.  `deps` is the ordered (node, version-at-capture) list,
replaced wholesale on every recomputation; `aObs`/`bObs` record whether
this derivation is currently in the observer set of the respective atom (the
back-edges, diffed against the rebuilt dependency list after each
recomputation). -/
structure FSys (V : Type) where
  a : Atom V
  b : Atom V
  deps : List (FNode × Nat)
  aObs : Bool
  bObs : Bool
  result : St V
deriving DecidableEq, Repr

/-- Modelled from the spec: one recomputation of the fallback derivation —
the compute reads `a`; if `a` is unresolved it also reads `b`; the
dependency list is rebuilt from scratch from the reads of this run
(discarding the previous list), and observer back-edges are diffed so that
an edge exists afterwards exactly when the node was read in this run. -/
def FSys.recompute (s : FSys V) : FSys V :=
  match s.a.restorableState with
  | St.value v =>
    { s with deps := [(FNode.na, s.a.version)], aObs := true, bObs := false,
             result := St.value v }
  | St.unresolved =>
    { s with deps := [(FNode.na, s.a.version), (FNode.nb, s.b.version)],
             aObs := true, bObs := true, result := s.b.restorableState }

/-- Mutating the primary atom of the fallback system (`a$.set` /
`a$.unset`). -/
def FSys.setA (s : FSys V) (x : St V) : FSys V :=
  { s with a := (Atom.set s.a x).1 }

/-- Concrete deriver for witnesses, after the test
about caching thrown errors: it throws error 7 when the atom holds
`true`, returns the value 0 otherwise. -/
def errDeriver : Nat → St Bool → DRes Nat := fun _ st =>
  match st with
  | St.value true => DRes.err 7
  | _ => DRes.val 0

/-- Concrete system for witnesses: an atom holding `false` observed by a
fresh derivation running `errDeriver`. -/
def exSys0 : Sys Bool Nat :=
  { a := Atom.make (St.value false), d := Derivation.fresh 5, reactor := false }

/-- State `exSys0` after a first read: the value 0 is cached. -/
def exSys1 : Sys Bool Nat := (Sys.get errDeriver exSys0).2

/-- State `exSys1` after `a$.set(true)`: the derivation is stale and the next
read will recompute and throw. -/
def exSys2 : Sys Bool Nat := Sys.set exSys1 (St.value true)

/-- State `exSys2` after the read that threw: error 7 is cached as
`CACHED-ERROR`. -/
def exSys3 : Sys Bool Nat := (Sys.get errDeriver exSys2).2

/-- Concrete deriver for witnesses: the test deriver `() => 123`. -/
def constDeriver : Nat → St Nat → DRes Nat := fun _ _ => DRes.val 123

/-- Concrete system for witnesses: an atom holding 0 observed by a fresh
derivation running `constDeriver`. -/
def exSysC : Sys Nat Nat :=
  { a := Atom.make (St.value 0), d := Derivation.fresh 0, reactor := false }

/-- Concrete fallback system for witnesses: `a` unresolved, fallback `b`
holding 42, derivation currently connected to both. -/
def exFSys : FSys Nat :=
  { a := Atom.make St.unresolved, b := Atom.make (St.value 42),
    deps := [(FNode.na, 0), (FNode.nb, 0)], aObs := true, bObs := true,
    result := St.value 42 }

/-- A variant of `exFSys` with the same atoms but a different previous
dependency list and observer edges, to witness that recomputation ignores
the previous list. -/
def exFSysB : FSys Nat :=
  { a := Atom.make St.unresolved, b := Atom.make (St.value 42),
    deps := [], aObs := false, bObs := false, result := St.unresolved }

/-! ## Helper lemmas -/

/-- Characterization of `Atom.set` by the equality check: equal states
short-circuit, different states replace the state and increment the
version. -/
theorem Atom.set_eq (a : Atom V) (x : St V) :
    Atom.set a x =
      if x = a.restorableState then (a, none)
      else ({ restorableState := x, version := a.version + 1 },
            some (a.restorableState, a.version)) := rfl

/-- A single `set` never decreases the version. -/
theorem Atom.set_version_le (a : Atom V) (x : St V) :
    a.version ≤ ((Atom.set a x).1).version := by
  rw [Atom.set_eq]
  split <;> simp

/-- A sequence of `set`s never decreases the version. -/
theorem Atom.setMany_version_le (a : Atom V) (xs : List (St V)) :
    a.version ≤ (Atom.setMany a xs).version := by
  induction xs generalizing a with
  | nil => exact le_refl _
  | cons x xs ih =>
    calc a.version ≤ ((Atom.set a x).1).version := Atom.set_version_le a x
      _ ≤ (Atom.setMany (Atom.set a x).1 xs).version := ih _
      _ = (Atom.setMany a (x :: xs)).version := rfl

/-- Characterization of `Sys.set`: equal states leave the system untouched,
different states update the atom and mark the derivation stale. -/
theorem Sys.set_unfold (s : Sys V W) (x : St V) :
    Sys.set s x =
      if x = s.a.restorableState then s
      else { s with
             a := { restorableState := x, version := s.a.version + 1 },
             d := { s.d with stale := true } } := by
  by_cases h : x = s.a.restorableState
  · simp [Sys.set, Atom.set, h]
  · simp [Sys.set, Atom.set, h]

/-- A non-stale derivation with a cached result returns it unchanged:
no recomputation, no state change at all. -/
theorem Derivation.get_cached (f : Nat → St V → DRes W) (a : Atom V)
    (d : Derivation W) (r : DRes W)
    (h1 : d.cache = some r) (h2 : d.stale = false) :
    Derivation.get f a d = (r, d) := by
  unfold Derivation.get
  rw [h1]
  simp [h2]

/-- Recomputation never decreases the version. -/
theorem Derivation.recompute_version_le (f : Nat → St V → DRes W)
    (a : Atom V) (d : Derivation W) :
    d.version ≤ (Derivation.recompute f a d).2.version := by
  unfold Derivation.recompute
  cases d.cache <;> simp
  split <;> simp

/-- Reading never decreases the version. -/
theorem Derivation.get_version_le (f : Nat → St V → DRes W) (a : Atom V)
    (d : Derivation W) :
    d.version ≤ (Derivation.get f a d).2.version := by
  unfold Derivation.get
  cases hc : d.cache with
  | none => exact Derivation.recompute_version_le f a d
  | some r =>
    by_cases hs : d.stale
    · by_cases hv : d.depVersion = a.version
      · simp [hs, hv]
      · simpa [hs, hv] using Derivation.recompute_version_le f a d
    · simp [hs]

/-- Reading changes the version exactly when it changes the cached result. -/
theorem Derivation.get_version_iff (f : Nat → St V → DRes W) (a : Atom V)
    (d : Derivation W) :
    ((Derivation.get f a d).2.version ≠ d.version ↔
      (Derivation.get f a d).2.cache ≠ d.cache) := by
  unfold Derivation.get Derivation.recompute
  cases hc : d.cache with
  | none => simp
  | some r =>
    by_cases hs : d.stale
    · by_cases hv : d.depVersion = a.version
      · simp [hs, hv, hc]
      · by_cases hf : f d.id a.restorableState = r
        · simp [hs, hv, hf, hc]
        · simp [hs, hv, hf, hc]
    · simp [hs, hc]

/-- Mutation via `Sys.set` leaves the derivation version (and everything
but the stale flag) alone and never decreases the atom version. -/
theorem Sys.set_version_facts (s : Sys V W) (x : St V) :
    s.a.version ≤ (Sys.set s x).a.version ∧
    (Sys.set s x).d.version = s.d.version := by
  rw [Sys.set_unfold]
  split <;> simp

/-- Reading via `Sys.get` does not touch the atom. -/
theorem Sys.get_atom (f : Nat → St V → DRes W) (s : Sys V W) :
    (Sys.get f s).2.a = s.a := rfl

/-- Ticking via `Sys.tick` touches neither version. -/
theorem Sys.tick_version (s : Sys V W) :
    (Sys.tick s).a.version = s.a.version ∧
    (Sys.tick s).d.version = s.d.version := by
  unfold Sys.tick
  split <;> simp

/-- Running any sequence of operations never decreases either version. -/
theorem Sys.run_version_le (f : Nat → St V → DRes W) (s : Sys V W)
    (ops : List (SysOp V)) :
    s.a.version ≤ (Sys.run f s ops).a.version ∧
    s.d.version ≤ (Sys.run f s ops).d.version := by
  induction ops generalizing s with
  | nil => exact ⟨le_refl _, le_refl _⟩
  | cons op ops ih =>
    cases op with
    | doSet x =>
      have hstep := Sys.set_version_facts s x
      have htail := ih (Sys.set s x)
      exact ⟨le_trans hstep.1 htail.1, le_trans (le_of_eq hstep.2.symm) htail.2⟩
    | doGet =>
      have hstep1 : s.a.version ≤ (Sys.get f s).2.a.version :=
        le_of_eq (congrArg Atom.version (Sys.get_atom f s)).symm
      have hstep2 : s.d.version ≤ (Sys.get f s).2.d.version :=
        Derivation.get_version_le f s.a s.d
      have htail := ih (Sys.get f s).2
      exact ⟨le_trans hstep1 htail.1, le_trans hstep2 htail.2⟩
    | doTick =>
      have hstep := Sys.tick_version s
      have htail := ih (Sys.tick s)
      exact ⟨le_trans (le_of_eq hstep.1.symm) htail.1,
             le_trans (le_of_eq hstep.2.symm) htail.2⟩

/-- A system whose derivation has a non-stale cached result is a fixed
point of `Sys.get`. -/
theorem Sys.get_on_cached (f : Nat → St V → DRes W) (s : Sys V W) (r : DRes W)
    (h1 : s.d.cache = some r) (h2 : s.d.stale = false) :
    Sys.get f s = (r, s) := by
  unfold Sys.get
  rw [Derivation.get_cached f s.a s.d r h1 h2]

/-- Repeated reads of a system with a non-stale cached result leave it
unchanged. -/
theorem Sys.getMany_cached (f : Nat → St V → DRes W) (s : Sys V W)
    (r : DRes W) (h1 : s.d.cache = some r) (h2 : s.d.stale = false)
    (n : Nat) :
    Sys.getMany f s n = s := by
  induction n with
  | zero => rfl
  | succ n ih =>
    show Sys.getMany f (Sys.get f s).2 n = s
    rw [Sys.get_on_cached f s r h1 h2]
    exact ih

/-- Operation `setA` always leaves the primary atom holding the requested state
(whether or not the equality check short-circuited). -/
theorem FSys.setA_state (s : FSys V) (x : St V) :
    (FSys.setA s x).a.restorableState = x := by
  by_cases h : x = s.a.restorableState
  · simp [FSys.setA, Atom.set, h]
  · simp [FSys.setA, Atom.set, h]

/-- After a recomputation, the back-edge from the fallback atom exists
exactly when the primary atom is unresolved. -/
theorem FSys.recompute_bObs_eq (s : FSys V) :
    (FSys.recompute s).bObs = decide (s.a.restorableState = St.unresolved) := by
  cases ha : s.a.restorableState <;> simp [FSys.recompute, ha]

/-! ## Claim theorems -/

/-- C1: for every Atom `A` and every value `x` structurally equal to the
current state of `A`, `A.set(x)` is a no-op — the state is not replaced, the
version is not incremented and `processChangedAtom` notifies no observer —
and consequently, for any `x`, `A.set(x); A.set(x)` increments the version
of `A` at most once. -/
theorem set_equal_state_is_noop (a : Atom V) :
    (∀ x : St V, x = a.restorableState → Atom.set a x = (a, none)) ∧
    (∀ x : St V,
      ((Atom.set (Atom.set a x).1 x).1).version ≤ a.version + 1) := by
  constructor
  · intro x hx
    simp [Atom.set, hx]
  · intro x
    by_cases hx : x = a.restorableState
    · simp [Atom.set, hx]
    · simp [Atom.set, hx]

/-- Witness for C1 at the concrete atom holding 3: setting 3 again is a
no-op without notification, and a double set to 5 bumps the version only
once. -/
theorem set_equal_state_is_noop_witness :
    (St.value 3 = (Atom.make (St.value (3 : Nat))).restorableState ∧
      Atom.set (Atom.make (St.value (3 : Nat))) (St.value 3) =
        (Atom.make (St.value 3), none)) ∧
    ((Atom.set (Atom.set (Atom.make (St.value (3 : Nat)))
        (St.value 5)).1 (St.value 5)).1).version ≤
      (Atom.make (St.value (3 : Nat))).version + 1 :=
  ⟨⟨rfl, (set_equal_state_is_noop (Atom.make (St.value 3))).1
      (St.value 3) rfl⟩,
   (set_equal_state_is_noop (Atom.make (St.value 3))).2 (St.value 5)⟩

/-- C2: the version of every node starts at 0 (Atom constructor, fresh
Derivation, Constant), is monotonically non-decreasing over every sequence
of operations, and changes exactly when the resolved state of the node changes
under the equality contract (for an Atom: its stored state; for a
Derivation: its cached result). -/
theorem version_monotone_and_tracks_changes :
    (∀ s : St V, (Atom.make s).version = 0) ∧
    (∀ i : Nat, (Derivation.fresh i : Derivation W).version = 0) ∧
    (∀ c : Constant V, Constant.version c = 0) ∧
    (∀ (a : Atom V) (xs : List (St V)),
      a.version ≤ (Atom.setMany a xs).version) ∧
    (∀ (f : Nat → St V → DRes W) (s : Sys V W) (ops : List (SysOp V)),
      s.a.version ≤ (Sys.run f s ops).a.version ∧
      s.d.version ≤ (Sys.run f s ops).d.version) ∧
    (∀ (a : Atom V) (x : St V),
      (((Atom.set a x).1).version ≠ a.version ↔
        ((Atom.set a x).1).restorableState ≠ a.restorableState)) ∧
    (∀ (f : Nat → St V → DRes W) (a : Atom V) (d : Derivation W),
      ((Derivation.get f a d).2.version ≠ d.version ↔
        (Derivation.get f a d).2.cache ≠ d.cache)) := by
  refine ⟨fun _ => rfl, fun _ => rfl, fun _ => rfl,
    Atom.setMany_version_le, Sys.run_version_le, ?_,
    Derivation.get_version_iff⟩
  intro a x
  by_cases h : x = a.restorableState
  · simp [Atom.set, h]
  · simp [Atom.set, h]

/-- C6: every read of the current resolved state of a node — `Atom` and
`Constant` reads included — goes through `recordObservation`, so a leaf
read inside a derivation evaluation appends a dependency edge to the
in-progress list, while a read with no computation in progress creates no
edge. -/
theorem leaf_reads_record_observation :
    (∀ (a : Atom V) (tr : Tracker (Atom V)),
      Atom.internalGetState a tr = (a.restorableState, recordObservation tr a)) ∧
    (∀ a : Atom V, (Atom.internalGetState a none).2 = none) ∧
    (∀ (a : Atom V) (ds : List (Atom V)),
      (Atom.internalGetState a (some ds)).2 = some (ds ++ [a])) ∧
    (∀ (c : Constant V) (tr : Tracker (Constant V)),
      Constant.internalGetState c tr = (c.state, recordObservation tr c)) ∧
    (∀ c : Constant V, (Constant.internalGetState c none).2 = none) ∧
    (∀ (c : Constant V) (ds : List (Constant V)),
      (Constant.internalGetState c (some ds)).2 = some (ds ++ [c])) :=
  ⟨fun _ _ => rfl, fun _ => rfl, fun _ _ => rfl,
   fun _ _ => rfl, fun _ => rfl, fun _ _ => rfl⟩

/-- C3: a derivation whose compute function throws error `e` catches it,
caches it as `CACHED-ERROR`, and every later `get()` rethrows the
identical error without re-invoking the compute function, until an actual
dependency version change causes a recomputation; the error is neither
swallowed nor retried automatically (exactly one compute call per
recomputation). -/
theorem thrown_error_cached_and_rethrown (f : Nat → St V → DRes W) :
    (∀ (s : Sys V W) (e : Nat),
      f s.d.id s.a.restorableState = DRes.err e →
      (s.d.cache = none ∨ (s.d.stale = true ∧ s.d.depVersion ≠ s.a.version)) →
      (Sys.get f s).1 = DRes.err e ∧
      (Sys.get f s).2.d.cache = some (DRes.err e) ∧
      (Sys.get f s).2.d.calls = s.d.calls + 1) ∧
    (∀ (s : Sys V W) (e : Nat),
      s.d.cache = some (DRes.err e) →
      (s.d.stale = false ∨ s.d.depVersion = s.a.version) →
      (Sys.get f s).1 = DRes.err e ∧
      (Sys.get f s).2.d.calls = s.d.calls ∧
      (Sys.get f s).2.d.cache = some (DRes.err e)) := by
  constructor
  · intro s e hf hpre
    rcases hpre with hc | ⟨hs, hv⟩
    · simp [Sys.get, Derivation.get, Derivation.recompute, hc, hf]
    · cases hc2 : s.d.cache with
      | none => simp [Sys.get, Derivation.get, Derivation.recompute, hc2, hf]
      | some r =>
        simp [Sys.get, Derivation.get, Derivation.recompute, hc2, hs, hv, hf]
  · intro s e hc hpre
    cases hs : s.d.stale with
    | false =>
      rw [Sys.get_on_cached f s (DRes.err e) hc hs]
      exact ⟨rfl, rfl, hc⟩
    | true =>
      have hv : s.d.depVersion = s.a.version := by
        rcases hpre with h1 | h2
        · rw [hs] at h1; cases h1
        · exact h2
      simp [Sys.get, Derivation.get, hc, hs, hv]

/-- Witness for C3 on the test scenario (`atom(false)`, a deriver that
throws error 7 on `true`): after `a$.set(true)` the next read recomputes
once and caches the thrown error, and the read after that rethrows the
identical error without a further compute call. -/
theorem thrown_error_cached_and_rethrown_witness :
    ((Sys.get errDeriver exSys2).1 = DRes.err 7 ∧
      (Sys.get errDeriver exSys2).2.d.cache = some (DRes.err 7) ∧
      (Sys.get errDeriver exSys2).2.d.calls = exSys2.d.calls + 1) ∧
    ((Sys.get errDeriver exSys3).1 = DRes.err 7 ∧
      (Sys.get errDeriver exSys3).2.d.calls = exSys3.d.calls ∧
      (Sys.get errDeriver exSys3).2.d.cache = some (DRes.err 7)) :=
  ⟨(thrown_error_cached_and_rethrown errDeriver).1 exSys2 7
      (by decide) (by decide),
   (thrown_error_cached_and_rethrown errDeriver).2 exSys3 7
      (by decide) (by decide)⟩

/-- C4: an observed derivation computes exactly once for repeated reads:
the first read invokes the compute function (one call), any number of
further reads leave the system unchanged, and in general reading a
non-stale derivation with a cached result returns that result with no
recomputation and no state change. -/
theorem observed_get_computes_once (f : Nat → St V → DRes W) (a : Atom V)
    (i : Nat) (rea : Bool) (n : Nat) :
    ((Sys.get f { a := a, d := Derivation.fresh i, reactor := rea }).2.d.calls = 1) ∧
    (Sys.getMany f
        (Sys.get f { a := a, d := Derivation.fresh i, reactor := rea }).2 n =
      (Sys.get f { a := a, d := Derivation.fresh i, reactor := rea }).2) ∧
    (∀ (s : Sys V W) (r : DRes W), s.d.cache = some r → s.d.stale = false →
      Sys.get f s = (r, s)) := by
  refine ⟨rfl, ?_, Sys.get_on_cached f⟩
  exact Sys.getMany_cached f _ (f i a.restorableState) rfl rfl n

/-- Witness for C4 with the test deriver `() => 123`: after the first
read the value 123 is cached non-stale, and a second read returns it with
the system unchanged. -/
theorem observed_get_computes_once_witness :
    ((Sys.get constDeriver exSysC).2.d.cache = some (DRes.val 123) ∧
      (Sys.get constDeriver exSysC).2.d.stale = false) ∧
    Sys.get constDeriver (Sys.get constDeriver exSysC).2 =
      (DRes.val 123, (Sys.get constDeriver exSysC).2) :=
  ⟨⟨by decide, by decide⟩,
   (observed_get_computes_once constDeriver exSysC.a 0 false 1).2.2
     (Sys.get constDeriver exSysC).2 (DRes.val 123) (by decide) (by decide)⟩

/-- C5: an autoCache-wrapped derivation with no Reactor attached computes
exactly once however often it is read within one unit of work, and the
first read of the next unit of work (after the scheduler tick released the
grace-period cache) invokes the compute function again. -/
theorem autocache_grace_period (f : Nat → St V → DRes W) (a : Atom V)
    (i : Nat) (n : Nat) :
    ((Sys.getMany f { a := a, d := Derivation.fresh i, reactor := false }
        (n + 1)).d.calls = 1) ∧
    ((Sys.get f (Sys.tick (Sys.getMany f
        { a := a, d := Derivation.fresh i, reactor := false }
        (n + 1)))).2.d.calls = 2) := by
  have h1 : Sys.getMany f
      { a := a, d := Derivation.fresh i, reactor := false } (n + 1) =
      (Sys.get f { a := a, d := Derivation.fresh i, reactor := false }).2 := by
    show Sys.getMany f
      (Sys.get f { a := a, d := Derivation.fresh i, reactor := false }).2 n = _
    exact Sys.getMany_cached f _ (f i a.restorableState) rfl rfl n
  rw [h1]
  exact ⟨rfl, rfl⟩

/-- C7: an atom mutation never invokes the compute function of a dependent
derivation synchronously: `Sys.set` leaves the calls counter and the cache
untouched, an actual change only marks the derivation stale, and the
compute function runs only when a later `get()` pulls the derivation. -/
theorem set_never_computes_synchronously (f : Nat → St V → DRes W)
    (s : Sys V W) (x : St V) :
    ((Sys.set s x).d.calls = s.d.calls) ∧
    ((Sys.set s x).d.cache = s.d.cache) ∧
    (x ≠ s.a.restorableState → (Sys.set s x).d.stale = true) ∧
    (x ≠ s.a.restorableState → s.d.depVersion ≤ s.a.version →
      (Sys.get f (Sys.set s x)).2.d.calls = s.d.calls + 1) := by
  refine ⟨?_, ?_, ?_, ?_⟩
  · rw [Sys.set_unfold]; split <;> rfl
  · rw [Sys.set_unfold]; split <;> rfl
  · intro hx; rw [Sys.set_unfold]; simp [hx]
  · intro hx hv
    rw [Sys.set_unfold, if_neg hx]
    cases hc : s.d.cache with
    | none => simp [Sys.get, Derivation.get, Derivation.recompute, hc]
    | some r =>
      have hne : s.d.depVersion ≠ s.a.version + 1 := by omega
      simp [Sys.get, Derivation.get, Derivation.recompute, hc, hne]

/-- Witness for C7: setting the atom of the concrete system from 0 to 1 marks
the derivation stale without a compute call, and the following read
performs exactly one compute call. -/
theorem set_never_computes_synchronously_witness :
    ((Sys.set exSysC (St.value 1)).d.stale = true) ∧
    ((Sys.get constDeriver (Sys.set exSysC (St.value 1))).2.d.calls =
      exSysC.d.calls + 1) :=
  ⟨(set_never_computes_synchronously constDeriver exSysC (St.value 1)).2.2.1
      (by decide),
   (set_never_computes_synchronously constDeriver exSysC (St.value 1)).2.2.2
      (by decide) (by decide)⟩

/-- C8: the dependency list and observer back-edges of the fallback derivation
are rebuilt wholesale on every recomputation — they do not depend on the
previous list — the back-edge to the fallback node exists after a
recomputation exactly when the fallback was read (the primary being
unresolved), it is detached by a recomputation that does not read the
fallback, and re-established by a later recomputation that reads it
again. -/
theorem dependencies_rebuilt_wholesale (s t : FSys V)
    (h1 : s.a = t.a) (h2 : s.b = t.b) :
    ((FSys.recompute s).deps = (FSys.recompute t).deps ∧
      (FSys.recompute s).bObs = (FSys.recompute t).bObs) ∧
    ((FSys.recompute s).bObs = true ↔ s.a.restorableState = St.unresolved) ∧
    (∀ v : V, ((FSys.setA s (St.value v)).recompute).bObs = false ∧
      (((FSys.setA s (St.value v)).setA St.unresolved).recompute).bObs = true) := by
  refine ⟨?_, ?_, ?_⟩
  · unfold FSys.recompute
    rw [h1, h2]
    cases hta : t.a.restorableState <;> simp [hta]
  · rw [FSys.recompute_bObs_eq]
    simp
  · intro v
    constructor
    · rw [FSys.recompute_bObs_eq, FSys.setA_state]
      simp
    · rw [FSys.recompute_bObs_eq, FSys.setA_state]
      simp

/-- Witness for C8: the concrete fallback systems `exFSys` and `exFSysB`
share atoms but differ in their previous dependency lists and edges, yet
recompute to the same dependency list and edges; setting the primary to 9
and recomputing detaches the fallback edge, unsetting it and recomputing
re-establishes it. -/
theorem dependencies_rebuilt_wholesale_witness :
    ((FSys.recompute exFSys).deps = (FSys.recompute exFSysB).deps ∧
      (FSys.recompute exFSys).bObs = (FSys.recompute exFSysB).bObs) ∧
    (((FSys.setA exFSys (St.value 9)).recompute).bObs = false ∧
      (((FSys.setA exFSys (St.value 9)).setA St.unresolved).recompute).bObs = true) :=
  ⟨(dependencies_rebuilt_wholesale exFSys exFSysB rfl rfl).1,
   (dependencies_rebuilt_wholesale exFSys exFSysB rfl rfl).2.2 9⟩

/-- C9: a compute function that returns (rather than throws) an Error
instance produces it as a legitimate resolved value: `get()` returns
`DRes.val e` instead of throwing, the value is memoized like any other (a
second read returns it with no further compute call and no state change),
and a returned error is a different state from the thrown error cached as
`CACHED-ERROR`. -/
theorem error_instance_is_legitimate_value (e : Nat) (a : Atom V) (i : Nat)
    (rea : Bool) :
    ((Sys.get (fun _ _ => DRes.val e)
        { a := a, d := Derivation.fresh i, reactor := rea }).1 = DRes.val e) ∧
    ((Sys.get (fun _ _ => DRes.val e)
        { a := a, d := Derivation.fresh i, reactor := rea }).2.d.cache =
      some (DRes.val e)) ∧
    (Sys.get (fun _ _ => DRes.val e)
        (Sys.get (fun _ _ => DRes.val e)
          { a := a, d := Derivation.fresh i, reactor := rea }).2 =
      (DRes.val e,
        (Sys.get (fun _ _ => DRes.val e)
          { a := a, d := Derivation.fresh i, reactor := rea }).2)) ∧
    ((Sys.get (fun _ _ => DRes.val e)
        { a := a, d := Derivation.fresh i, reactor := rea }).2.d.calls = 1) ∧
    (DRes.val e ≠ (DRes.err e : DRes Nat)) := by
  refine ⟨rfl, rfl, ?_, rfl, by simp⟩
  exact Sys.get_on_cached _ _ (DRes.val e) rfl rfl

/-- C10: the compute function is invoked with `this` bound to the
derivation instance itself: a compute function that reports its receiver
yields the identity of the derivation itself. -/
theorem compute_receiver_is_derivation (a : Atom V) (i : Nat) (rea : Bool) :
    (Sys.get (fun t _ => DRes.val t)
        { a := a, d := Derivation.fresh i, reactor := rea }).1 = DRes.val i := rfl

end Sherlock
